import Mathlib

set_option maxHeartbeats 1000000
set_option linter.unusedVariables false

/-!
Shallow embedding of the PVJ_Data_Extractor extraction pipeline
(`extractor.py`, `ocr_utils.py`, `config.py`).

Modelling conventions:
* Python floats are modelled as exact rationals (`ℚ`); `round(x, 2)` is
  modelled as exact decimal round-half-to-even.
* Python strings are Lean `String`s; the character-class predicates
  (`\s`, `\d`, `\w`, upper/lower case) are modelled on their ASCII parts,
  which is all the source's inputs and patterns exercise, plus the
  Devanagari block that the source strips explicitly.
* The fixed regular expressions of the source are compiled by hand into
  executable scanners over `List Char`; greedy sub-patterns whose
  backtracking can never change the outcome for these particular patterns
  are implemented greedily.
* The productivity value is carried structurally (`ProdVal`) instead of a
  formatted decimal string; the audit step's re-parsing of that string is
  modelled as reading the structural value back (the source's formatter and
  parser are exact inverses on the values produced).
* I/O-effectful steps (page rendering, OCR) are modelled as oracles: a
  digital text per page and an `Except`-valued OCR outcome per page, the
  `error` case standing for a raised exception inside the page's try-block.
-/

/-! ### Character classes -/

def isPyWS (c : Char) : Bool :=
  c = ' ' || c = '\t' || c = '\n' || c = '\r' || c = '\x0b' || c = '\x0c'

/-- `[^\S\r\n]`: whitespace other than carriage return / newline. -/
def isWSNoNL (c : Char) : Bool :=
  c = ' ' || c = '\t' || c = '\x0b' || c = '\x0c'

def isDevanagari (c : Char) : Bool :=
  0x900 ≤ c.toNat && c.toNat ≤ 0x97F

def isAsciiDigit (c : Char) : Bool :=
  '0' ≤ c && c ≤ '9'

def isAsciiAlpha (c : Char) : Bool :=
  ('A' ≤ c && c ≤ 'Z') || ('a' ≤ c && c ≤ 'z')

/-- `\w` (ASCII part). -/
def isWordChar (c : Char) : Bool :=
  isAsciiAlpha c || isAsciiDigit c || c = '_'

def lowerL (l : List Char) : List Char := l.map Char.toLower

def upperL (l : List Char) : List Char := l.map Char.toUpper

/-! ### String utilities shared by the source files -/

/-- `re.sub(r"[ऀ-ॿ]", " ", s)` (extractor.py). -/
def devToSpace (l : List Char) : List Char :=
  l.map (fun c => if isDevanagari c then ' ' else c)

/-- `re.sub(r"[ऀ-ॿ]+", "", s)` (ocr_utils.py). -/
def removeDev (l : List Char) : List Char :=
  l.filter (fun c => !isDevanagari c)

/-- `re.sub(p+, " ", s)`: collapse each maximal run of characters
satisfying `p` into a single space.  The flag records whether the previous
character belonged to a run already emitted. -/
def collapseRuns (p : Char → Bool) : Bool → List Char → List Char
  | _, [] => []
  | prev, c :: rest =>
    if p c then
      if prev then collapseRuns p true rest else ' ' :: collapseRuns p true rest
    else c :: collapseRuns p false rest

/-- Python `str.strip()`. -/
def pyStripL (l : List Char) : List Char :=
  ((l.dropWhile isPyWS).reverse.dropWhile isPyWS).reverse

def pyStrip (s : String) : String := String.mk (pyStripL s.toList)

/-- Python `str.splitlines()` (restricted to `\n`, `\r\n`, `\r`). -/
def pySplitlinesAux : List Char → List Char → List (List Char)
  | acc, [] => if acc.isEmpty then [] else [acc.reverse]
  | acc, '\r' :: '\n' :: rest => acc.reverse :: pySplitlinesAux [] rest
  | acc, '\r' :: rest => acc.reverse :: pySplitlinesAux [] rest
  | acc, '\n' :: rest => acc.reverse :: pySplitlinesAux [] rest
  | acc, c :: rest => pySplitlinesAux (c :: acc) rest

/-- Python `sub in s` on strings, as a list scan. -/
def containsL (pat : List Char) : List Char → Bool
  | [] => pat.isEmpty
  | c :: rest => pat.isPrefixOf (c :: rest) || containsL pat rest

/-- Python `s.split()[0]` modulo the crash on all-whitespace input
(callers only pass non-blank lines). -/
def firstTokenPy (s : String) : List Char :=
  (s.toList.dropWhile isPyWS).takeWhile (fun c => !isPyWS c)

/-- Python `str.capitalize()`. -/
def capitalizeStr (s : String) : String :=
  match s.toList with
  | [] => ""
  | c :: rest => String.mk (c.toUpper :: lowerL rest)

/-- extractor.py `strip_non_english`. -/
def strip_non_english (s : String) : String :=
  String.mk (pyStripL (collapseRuns isWSNoNL false (devToSpace s.toList)))

/-- One iteration body of extractor.py `clean_lines`'s loop. -/
def cleanLineKeep (ln : List Char) : Option (List Char) :=
  let t := pyStripL ln
  if t.isEmpty then none
  else if t.length < 2 && !(lowerL t = ['a'] || lowerL t = ['i'] || lowerL t = ['x']) then none
  else some (collapseRuns isPyWS false t)

/-- extractor.py `clean_lines`. -/
def clean_lines (block : String) : List String :=
  ((pySplitlinesAux [] (strip_non_english block).toList).filterMap cleanLineKeep).map String.mk

/-- extractor.py `safe` (string inputs). -/
def safe (s : String) : String :=
  let t := pyStripL s.toList
  if t.isEmpty then "NA" else String.mk t

/-! ### Knowledge bases -/

def CROP_WORDS : List String :=
  ["rice","wheat","maize","barley","sorghum","millet","oat","rye",
   "gram","pigeonpea","lentil","blackgram","greengram","cowpea","fieldpea",
   "mustard","rapeseed","groundnut","sesame","sunflower","soybean","safflower","linseed","castor",
   "cotton","sugarcane","jute","tobacco","tea","coffee","coconut",
   "tomato","potato","onion","brinjal","chilli","okra","cabbage","cauliflower","cucumber","melon",
   "banana","papaya","pomegranate","guava","mango","pear","pearl millet","bajra","finger millet","ragi"]

/-- Insertion order of the Python dict is significant for the
prefix-matching loop in `expand_applicant`. -/
def APPLICANT_MAP : List (String × String) :=
  [("CICR", "ICAR-Central Institute for Cotton Research"),
   ("DRR", "ICAR-Directorate of Rice Research"),
   ("ICAR", "Indian Council of Agricultural Research"),
   ("IARI", "ICAR-Indian Agricultural Research Institute (Pusa)"),
   ("JNKVV", "Jawaharlal Nehru Krishi Vishwavidyalaya"),
   ("IGKV", "Indira Gandhi Krishi Vishwavidyalaya"),
   ("ANGRAU", "Acharya N G Ranga Agricultural University"),
   ("PAU", "Punjab Agricultural University"),
   ("TNAU", "Tamil Nadu Agricultural University"),
   ("UAS", "University of Agricultural Sciences"),
   ("MPKV", "Mahatma Phule Krishi Vidyapeeth (Phule/ Rahuri)"),
   ("BHU", "Banaras Hindu University"),
   ("BARC", "Bhabha Atomic Research Centre (Trombay)"),
   ("JNARDDC", "Jawaharlal Nehru Aluminium Research Dev & Design Centre"),
   ("PUSA", "ICAR-Indian Agricultural Research Institute (Pusa)"),
   ("JKV", "Jawahar Krishi Vishwavidyalaya"),
   ("JAWAHAR", "JNKVV-Jawahar"),
   ("CHHATTISGARH", "IGKV-Chhattisgarh Agricultural University")]

def PUBLIC_HINTS : List String :=
  ["icar","university","college","institute","govt","government","research","krishi","angrau","pau","tnau",
   "uas","jknvv","jnkvv","iari","pusa","barc","igkv","mpkv","bhu","gov","component project","directorate"]

def PRIVATE_HINTS : List String :=
  ["pvt","private","limited","ltd","seeds","seed","biotech","agro","genetics","lifecycle","company","industries"]

def FARMER_HINTS : List String := ["farmer","grower"]

def VARIETY_TYPE_WORDS : List (String × String) :=
  [("Extant","extant"), ("Notified","notified"), ("New","new"), ("Hybrid","hybrid")]

/-! ### Field classifiers -/

/-- extractor.py `classify_applicant_type`. -/
def classify_applicant_type (name : String) : String :=
  let n := lowerL name.toList
  if FARMER_HINTS.any (fun k => containsL k.toList n) then "Farmer"
  else if PRIVATE_HINTS.any (fun k => containsL k.toList n) then "Private Sector"
  else if PUBLIC_HINTS.any (fun k => containsL k.toList n) then "Public / Govt"
  else if APPLICANT_MAP.any (fun p => containsL (lowerL p.1.toList) n || containsL (lowerL p.2.toList) n) then
    "Public / Govt"
  else if name = "" || name = "NA" then "NA" else "Other"

/-- extractor.py `expand_applicant`. -/
def expand_applicant (token : String) : String :=
  if token = "" then "NA"
  else
    let tokenUp := (upperL token.toList).filter (fun c => 'A' ≤ c && c ≤ 'Z')
    match APPLICANT_MAP.find? (fun p => p.1.toList.isPrefixOf tokenUp) with
    | some p => p.2
    | none => token

/-- extractor.py `detect_variety_type`. -/
def detect_variety_type (block : String) : String :=
  let b := lowerL block.toList
  match VARIETY_TYPE_WORDS.find? (fun p => containsL p.2.toList b) with
  | some p => p.1
  | none => "NA"

/-- Word boundary `\b` to the left of a word character, given the
preceding character (if any). -/
def boundaryBefore : Option Char → Bool
  | none => true
  | some c => !isWordChar c

/-- Word boundary `\b` to the right of a word character, given what
follows. -/
def boundaryAfter : List Char → Bool
  | [] => true
  | c :: _ => !isWordChar c

/-- `\s*cotton\b` starting at `l`. -/
def cottonAfterWS (l : List Char) : Bool :=
  let r := l.dropWhile isPyWS
  "cotton".toList.isPrefixOf r && boundaryAfter (r.drop 6)

/-- `(x\.|long)\s*cotton\b` anchored at the current position. -/
def ploidyAt (short : Char) (long : List Char) (l : List Char) : Bool :=
  (match l with
   | c1 :: '.' :: rest => c1 = short && cottonAfterWS rest
   | _ => false)
  || (long.isPrefixOf l && cottonAfterWS (l.drop long.length))

/-- `re.search(r"\b(x\.|long)\s*cotton\b", b)`. -/
def scanPloidy (short : Char) (long : List Char) : Option Char → List Char → Bool
  | _, [] => false
  | prev, c :: rest =>
    (boundaryBefore prev && ploidyAt short long (c :: rest)) || scanPloidy short long (some c) rest

/-- extractor.py `infer_crop`. -/
def infer_crop (block : String) : String :=
  let b := ' ' :: lowerL block.toList ++ [' ']
  match CROP_WORDS.find? (fun w => containsL (' ' :: w.toList ++ [' ']) b) with
  | some w => capitalizeStr w
  | none =>
    if scanPloidy 't' "tetraploid".toList none b then "Cotton"
    else if scanPloidy 'd' "diploid".toList none b then "Cotton"
    else "NA"

/-- `x\.\s*cotton` with no word boundaries (COTTON_TAXA patterns). -/
def scanDotCotton (short : Char) : List Char → Bool
  | [] => false
  | c :: rest =>
    (c = short &&
      (match rest with
       | '.' :: r2 => "cotton".toList.isPrefixOf (r2.dropWhile isPyWS)
       | _ => false))
    || scanDotCotton short rest

/-- `arboreum` somewhere ahead on the same line (`.*` never crosses `\n`). -/
def arboreumAfter : List Char → Bool
  | [] => false
  | c :: rest =>
    if c = '\n' then false
    else "arboreum".toList.isPrefixOf (c :: rest) || arboreumAfter rest

/-- `g.*arboreum`. -/
def gStarArboreum : List Char → Bool
  | [] => false
  | c :: rest => (c = 'g' && arboreumAfter rest) || gStarArboreum rest

def taxaTetra (b : List Char) : Bool :=
  containsL "tetraploid cotton".toList b || scanDotCotton 't' b ||
  containsL "g. hirsutum".toList b || containsL "gossypium hirsutum".toList b

def taxaDiploid (b : List Char) : Bool :=
  containsL "diploid cotton".toList b || scanDotCotton 'd' b ||
  gStarArboreum b || containsL "gossypium arboreum".toList b

/-- extractor.py `detect_taxonomy`. -/
def detect_taxonomy (block crop : String) : String :=
  if crop ≠ "Cotton" then "NA"
  else
    let b := lowerL block.toList
    if taxaTetra b then "Tetraploid Cotton"
    else if taxaDiploid b then "Diploid Cotton"
    else "NA"

/-! ### Normalizer -/

/-- The unit-string canonicalization at the head of `normalize_units`:
`(unit or "q/ha").lower().replace(" ", "")`. -/
def canonUnit (unit : String) : String :=
  String.mk ((lowerL (if unit = "" then "q/ha" else unit).toList).filter (fun c => c ≠ ' '))

/-- extractor.py `normalize_units`. -/
def normalize_units (value : ℚ) (unit : String) : ℚ :=
  let u := canonUnit unit
  if u ∈ (["q/ha","quintal/ha","quintals/ha","quintalperhectare"] : List String) then value
  else if u ∈ (["t/ha","ton/ha","tons/ha","tonnes/ha"] : List String) then value * 10
  else if u ∈ (["kg/ha","kgs/ha","kilogram/ha"] : List String) then value / 100
  else if u ∈ (["q/acre","quintal/acre","quintals/acre"] : List String) then value * 2.47
  else if u ∈ (["t/acre","ton/acre","tons/acre"] : List String) then value * 24.7
  else if u ∈ (["kg/acre","kgs/acre"] : List String) then value / 40.47
  else value

/-! ### Productivity detection -/

/-- The value of a numeric literal with integer digits `ds` and
fractional digits `fs` (`float(m.group(1))`, exactly). -/
def digitsToNat (ds : List Char) : ℕ :=
  ds.foldl (fun n c => 10 * n + (c.toNat - '0'.toNat)) 0

def ratOfNumParts (ds fs : List Char) : ℚ :=
  match fs with
  | [] => (digitsToNat ds : ℚ)
  | _ => (digitsToNat ds : ℚ) + (digitsToNat fs : ℚ) / (10 : ℚ) ^ fs.length

/-- The unit alternatives of the tier-1 pattern, in alternation order. -/
def UNIT_ALTS : List String :=
  ["q/ha","t/ha","tons/ha","ton/ha","kg/ha","q/acre","t/acre","kg/acre"]

/-- Case-insensitive match of one unit alternative at the head of `l`. -/
def unitAt (l : List Char) : Option String :=
  (UNIT_ALTS.find? (fun u => u.toList.isPrefixOf (lowerL (l.take u.toList.length)))).map
    (fun u => String.mk (l.take u.toList.length))

/-- One attempted match of `(\d+(?:\.\d+)?)\s*(unit-alternation)` anchored
at the current position; returns integer digits, fractional digits, the
captured unit text, and the remainder after the match.  For this pattern
greedy matching without backtracking is exact: a failed continuation after
`\d+` or `\.\d+` or `\s*` can never be rescued by a shorter greedy part,
since a digit can start none of `\.`, `\s`, or a unit alternative, and a
whitespace character can start no unit alternative. -/
def tryProdAt (l : List Char) : Option (List Char × List Char × String × List Char) :=
  let ds := l.takeWhile isAsciiDigit
  if ds.isEmpty then none
  else
    let r1 := l.drop ds.length
    let fr :=
      match r1 with
      | '.' :: t => let fds := t.takeWhile isAsciiDigit; if fds.isEmpty then [] else fds
      | _ => []
    let r2 := if fr.isEmpty then r1 else r1.drop (fr.length + 1)
    let r3 := r2.dropWhile isPyWS
    match unitAt r3 with
    | some u => some (ds, fr, u, r3.drop u.toList.length)
    | none => none

/-- `re.finditer` for the tier-1 pattern: scan left to right, resuming
after each match.  Fuel is the length of the scanned list. -/
def findAllProd : ℕ → List Char → List (List Char × List Char × String)
  | 0, _ => []
  | _, [] => []
  | fuel + 1, c :: rest =>
    match tryProdAt (c :: rest) with
    | some (ds, fr, u, after) => (ds, fr, u) :: findAllProd fuel after
    | none => findAllProd fuel rest

/-- Exact decimal round-half-to-even of `100 * q`, on raw numerator and
denominator (all integer arithmetic, so it evaluates in the kernel). -/
def rhe100 (q : ℚ) : ℤ :=
  let n := 100 * q.num
  let d := (q.den : ℤ)
  let f := n.fdiv d
  if 2 * (n - f * d) < d then f
  else if d < 2 * (n - f * d) then f + 1
  else if f % 2 = 0 then f else f + 1

/-- Python `round(x, 2)` (decimal half-even model of the float round). -/
def pyRound2 (q : ℚ) : ℚ := (rhe100 q : ℚ) / 100

/-- The structured productivity payload: the source's `"<x> q/ha"` string
or the `"NA"` sentinel. -/
inductive ProdVal
  | na : ProdVal
  | qha (x : ℚ) : ProdVal
deriving DecidableEq, Inhabited

/-- `re.fullmatch(r"\d{1,3}(?:\.\d+)?", ln)`, returning the digit parts. -/
def loneNumParts (s : String) : Option (List Char × List Char) :=
  let l := s.toList
  let ds := l.takeWhile isAsciiDigit
  if ds.length < 1 || 3 < ds.length then none
  else
    match l.drop ds.length with
    | [] => some (ds, [])
    | '.' :: t => if !t.isEmpty && t.all isAsciiDigit then some (ds, t) else none
    | _ => none

def loneNumInRange (s : String) : Bool :=
  match loneNumParts s with
  | some (ds, fs) => decide (5 ≤ ratOfNumParts ds fs ∧ ratOfNumParts ds fs ≤ 150)
  | none => false

def loneNumVal (s : String) : ℚ :=
  match loneNumParts s with
  | some (ds, fs) => ratOfNumParts ds fs
  | none => 0

/-- The tier-2 fallback of `detect_productivity`: the last five cleaned
lines, first lone bounded numeral within range. -/
def prodTier2 (b : String) : ProdVal × String :=
  let lns := (clean_lines b).drop ((clean_lines b).length - 5)
  match lns.find? loneNumInRange with
  | some ln => (ProdVal.qha (loneNumVal ln), "Medium")
  | none => (ProdVal.na, "Low")

/-- extractor.py `detect_productivity`. -/
def detect_productivity (block : String) : ProdVal × String :=
  let b := strip_non_english block
  match (findAllProd b.toList.length b.toList).getLast? with
  | some m =>
    let q := normalize_units (ratOfNumParts m.1 m.2.1) m.2.2
    if 5 ≤ q ∧ q ≤ 150 then (ProdVal.qha (pyRound2 q), "High") else prodTier2 b
  | none => prodTier2 b

/-! ### Variety name -/

def endsWithPunct (s : String) : Bool :=
  match s.toList.getLast? with
  | some c => c = '.' || c = ':' || c = ';'
  | none => false

/-- After an opening parenthesis, `[^)]+\)` can complete a match iff the
next character is not `)` and some `)` occurs later. -/
def nextCloseGood (l : List Char) : Bool :=
  match l with
  | [] => false
  | c :: rest => c ≠ ')' && rest.any (fun x => x = ')')

def startsForbidden (l : List Char) : Bool :=
  "Notified".toList.isPrefixOf l || "Extant".toList.isPrefixOf l || "New".toList.isPrefixOf l

/-- `re.search(r"\((?!Notified|Extant|New)[^)]+\)", s)`. -/
def parenCodeScan : List Char → Bool
  | [] => false
  | c :: rest => (c = '(' && !startsForbidden rest && nextCloseGood rest) || parenCodeScan rest

def joinTwo (a b : String) : String :=
  String.mk (pyStripL (a.toList ++ ' ' :: b.toList))

/-- extractor.py `extract_variety_name`. -/
def extract_variety_name (lines : List String) : String :=
  match lines with
  | [] => "NA"
  | [l0] => pyStrip l0
  | l0 :: l1 :: _ =>
    if parenCodeScan l1.toList && l1.length < 50 then joinTwo l0 l1
    else if l1.length ≤ 30 && !endsWithPunct l0 then joinTwo l0 l1
    else pyStrip l0

/-- extractor.py `infer_applicant_from_header`. -/
def infer_applicant_from_header (lines : List String) : String :=
  match lines with
  | [] => "NA"
  | l0 :: _ =>
    let token := (firstTokenPy l0).filter isAsciiAlpha
    if token.isEmpty then "NA" else expand_applicant (String.mk token)

/-! ### Charter hint -/

/-- Case-insensitive literal word at the head of `l`. -/
def ciPrefix (w : List Char) (l : List Char) : Bool :=
  w.isPrefixOf (lowerL (l.take w.length))

def ciWordB (w : List Char) (l : List Char) : Bool :=
  ciPrefix w l && boundaryAfter (l.drop w.length)

/-- `w1\s+w2\b` at the head of `l`. -/
def ciTwoWordB (w1 w2 : List Char) (l : List Char) : Bool :=
  ciPrefix w1 l &&
    (let r := (l.drop w1.length)
     let ws := r.takeWhile isPyWS
     !ws.isEmpty && ciWordB w2 (r.drop ws.length))

/-- The charter trigger alternation of `parse_taxonomy_charter`, anchored
at the current position. -/
def charterAt (l : List Char) : Bool :=
  ciWordB "resistant".toList l || ciWordB "tolerant".toList l || ciWordB "suitable".toList l ||
  ciTwoWordB "high".toList "yield".toList l || ciTwoWordB "early".toList "maturity".toList l ||
  ciWordB "drought".toList l || ciWordB "flood".toList l

/-- `re.search` for the charter pattern; returns the suffix starting at
the first match position. -/
def charterSearch : List Char → Option (List Char)
  | [] => none
  | c :: rest => if charterAt (c :: rest) then some (c :: rest) else charterSearch rest

/-- extractor.py `parse_taxonomy_charter`. -/
def parse_taxonomy_charter (block : String) : String × String :=
  let crop := infer_crop block
  let taxonomy := detect_taxonomy block crop
  let charter :=
    match charterSearch block.toList with
    | none => "NA"
    | some suf =>
      let g0 := suf.takeWhile (fun c => c ≠ '\n')
      let c1 := collapseRuns isPyWS false (pyStripL g0)
      if 100 < c1.length then String.mk (c1.take 100) ++ "…" else String.mk c1
  (taxonomy, charter)

/-! ### Block → Entry -/

@[ext]
structure Entry where
  Variety_Name : String := "NA"
  Crop : String := "NA"
  Variety_Type : String := "NA"
  Applicant : String := "NA"
  Applicant_Type : String := "NA"
  Charter_of_Crop : String := "NA"
  Taxonomy : String := "NA"
  Productivity : ProdVal := ProdVal.na
  Productivity_Confidence : String := "Low"
  Distinctiveness : String := "NA"
  Developer_or_Breeder : String := "NA"
  Block_Text : String := "NA"
  Reg_No : String := "NA"
  Page_Number : ℕ := 0
deriving DecidableEq, Inhabited

/-- extractor.py `parse_block`. -/
def parse_block (block : String) : Entry :=
  let block1 := strip_non_english block
  let lines := clean_lines block1
  if lines.isEmpty then { Block_Text := safe block1 }
  else
    let prodc := detect_productivity block1
    let applicant := infer_applicant_from_header lines
    let tc := parse_taxonomy_charter block1
    { Variety_Name := extract_variety_name lines
      Crop := infer_crop block1
      Variety_Type := detect_variety_type block1
      Applicant := applicant
      Applicant_Type := classify_applicant_type applicant
      Charter_of_Crop := tc.2
      Taxonomy := tc.1
      Productivity := prodc.1
      Productivity_Confidence := prodc.2
      Distinctiveness := "NA"
      Developer_or_Breeder := applicant
      Block_Text := safe block1 }

/-! ### Segmenter -/

/-- `REG/\d{4}/\d+` (case-insensitive) anchored at the current position;
returns the matched text and the remainder. -/
def tryAnchorAt (l : List Char) : Option (List Char × List Char) :=
  match l with
  | c1 :: c2 :: c3 :: '/' :: rest =>
    if c1.toLower = 'r' && c2.toLower = 'e' && c3.toLower = 'g' then
      let d4 := rest.take 4
      if d4.length = 4 && d4.all isAsciiDigit then
        match rest.drop 4 with
        | '/' :: rest2 =>
          let ds := rest2.takeWhile isAsciiDigit
          if ds.isEmpty then none
          else some (c1 :: c2 :: c3 :: '/' :: (d4 ++ '/' :: ds), rest2.drop ds.length)
        | _ => none
      else none
    else none
  | _ => none

/-- Leftmost anchor match: prefix before it, matched text, remainder. -/
def findAnchor : List Char → Option (List Char × List Char × List Char)
  | [] => none
  | c :: rest =>
    match tryAnchorAt (c :: rest) with
    | some (m, after) => some ([], m, after)
    | none =>
      match findAnchor rest with
      | some (pre, m, after) => some (c :: pre, m, after)
      | none => none

/-- The `(anchor, following-span)` pairs of `re.split` on the anchor
pattern; the fuel (initialised to the list length, which always suffices,
as each match consumes at least one character) only forces termination. -/
def anchorPairsGo : ℕ → List Char → List Char → List (List Char × List Char)
  | 0, m, rest => [(m, rest)]
  | fuel + 1, m, rest =>
    match findAnchor rest with
    | none => [(m, rest)]
    | some (pre2, m2, rest2) => (m, pre2) :: anchorPairsGo fuel m2 rest2

def anchorPairs (l : List Char) : List (List Char × List Char) :=
  match findAnchor l with
  | none => []
  | some (_, m, rest) => anchorPairsGo l.length m rest

/-- One kept block of `parse_entries_from_text`'s loop. -/
def mkRegEntry (rn blk : List Char) : Entry :=
  { parse_block (String.mk blk) with Reg_No := String.mk (pyStripL rn) }

/-- The loop of `parse_entries_from_text`: tiny spans are skipped. -/
def entriesFromPairs : List (List Char × List Char) → List Entry
  | [] => []
  | (rn, blk) :: rest =>
    if (pyStripL blk).length < 15 then entriesFromPairs rest
    else mkRegEntry rn blk :: entriesFromPairs rest

/-- extractor.py `parse_entries_from_text`. -/
def parse_entries_from_text (text : String) : List Entry :=
  entriesFromPairs (anchorPairs (strip_non_english text).toList)

/-! ### Audit engine -/

/-- extractor.py `_row_audit_flags`, as the list of appended flags.  The
`productivity_unparsable` branch is unreachable on the structural
productivity value (the source's own formatted strings always re-parse). -/
def row_audit_flags (r : Entry) : List String :=
  (if r.Variety_Name = "NA" ∨ r.Variety_Name = "" then ["no_variety_name"] else [])
  ++ (if r.Crop = "NA" then ["crop_unknown"] else [])
  ++ (if r.Variety_Type = "NA" then ["variety_type_missing"] else [])
  ++ (match r.Productivity with
      | ProdVal.na => ["productivity_missing"]
      | ProdVal.qha v => if ¬(5 ≤ v ∧ v ≤ 150) then ["productivity_out_of_range"] else [])
  ++ (if r.Applicant = "NA" then ["applicant_missing"] else [])
  ++ (if r.Crop = "Cotton" ∧ r.Taxonomy = "NA" then ["cotton_taxonomy_unknown"] else [])

def audit_flags_str (r : Entry) : String :=
  let fs := row_audit_flags r
  if fs.isEmpty then "OK" else String.intercalate "," fs

/-! ### Aggregator -/

/-- The per-page parse loop of `extract_to_dataframe` (no cancellation):
pages in order, each page's entries in appearance order, tagged with
1-based page numbers. -/
def pageRows (texts : List String) : List Entry :=
  (List.enumFrom 1 texts).flatMap
    (fun it => (parse_entries_from_text it.2).map (fun e => { e with Page_Number := it.1 }))

/-- `df.drop_duplicates(subset=["Reg_No"])` (keep first), with the set of
already-seen keys as accumulator. -/
def dedupFirst : List Entry → List String → List Entry
  | [], _ => []
  | e :: rest, seen =>
    if e.Reg_No ∈ seen then dedupFirst rest seen
    else e :: dedupFirst rest (e.Reg_No :: seen)

/-- The deduplicated final table of `extract_to_dataframe`. -/
def extract_table (texts : List String) : List Entry :=
  dedupFirst (pageRows texts) []

/-! ### Text acquisition (ocr_utils.py) -/

structure Config where
  DPI : ℕ := 450
  CONTRAST : ℚ := 2
  BIN_THRESHOLD : ℕ := 180
  LANG : String := "eng"
  MAX_PAGES : Option ℕ := none
  THREADS : ℕ := 2

/-- ocr_utils.py `ocr_page`: the whole body runs in a `try`; the oracle's
`error` case is a raised render/OCR exception, producing the inline
diagnostic marker. -/
def ocr_page (outcome : Except String String) : String :=
  match outcome with
  | Except.ok t => String.mk (pyStripL (removeDev t.toList))
  | Except.error e => "[OCR ERROR: " ++ e ++ "]"

/-- A page of the document as the oracles see it: the embedded digital
text and the outcome of OCRing the rendered page. -/
structure PageSrc where
  digital : String
  ocrOutcome : Except String String

/-- `page.get_text("text").strip()` followed by the Devanagari strip. -/
def digital_text (p : PageSrc) : String :=
  String.mk (removeDev (pyStripL p.digital.toList))

/-- One iteration of `hybrid_extract_text`: digital text if long enough,
else the OCR fallback.  `cfg` only feeds the OCR parameters, which the
`ocrOutcome` oracle already absorbs. -/
def page_text (cfg : Config) (p : PageSrc) : String :=
  let t := digital_text p
  if t.length < 150 then ocr_page p.ocrOutcome else t

/-- The page loop of `hybrid_extract_text`; the cancel predicate is
polled once at the top of each iteration (indexed by poll count), and a
`true` poll breaks out, returning what was accumulated so far. -/
def hybridGo (cfg : Config) (cancel : ℕ → Bool) : ℕ → List PageSrc → List String
  | _, [] => []
  | i, p :: rest =>
    if cancel i then [] else page_text cfg p :: hybridGo cfg cancel (i + 1) rest

/-- ocr_utils.py `hybrid_extract_text`.  Note that the page range is the
whole document: `cfg.MAX_PAGES` is not consulted here. -/
def hybrid_extract_text (pages : List PageSrc) (cfg : Config) (cancel : ℕ → Bool) : List String :=
  hybridGo cfg cancel 0 pages

/-- The page selection of `ocr_document`: `range(total_pages)` or
`range(min(cfg.MAX_PAGES, total_pages))`. -/
def ocrSelected (doc : List (Except String String)) (cfg : Config) : List (Except String String) :=
  match cfg.MAX_PAGES with
  | none => doc
  | some n => doc.take (min n doc.length)

/-- ocr_utils.py `ocr_document` without cancellation: the scatter/gather
over the worker pool writes each result into the index-aligned slot, so
the no-cancel behaviour is an index-aligned map over the selection. -/
def ocr_document (doc : List (Except String String)) (cfg : Config) : List String :=
  (ocrSelected doc cfg).map ocr_page

/-! ## Auxiliary lemmas -/

theorem containsL_iff (pat : List Char) (l : List Char) :
    containsL pat l = true ↔ ∃ s t, l = s ++ pat ++ t := by
  induction l with
  | nil =>
    constructor
    · intro h
      have hp : pat = [] := by
        cases pat with
        | nil => rfl
        | cons a t => simp [containsL] at h
      exact ⟨[], [], by simp [hp]⟩
    · rintro ⟨s, t, h⟩
      have h1 := List.append_eq_nil.mp (h.symm)
      have h2 := List.append_eq_nil.mp h1.1
      simp [containsL, h2.2]
  | cons c rest ih =>
    constructor
    · intro h
      have h2 : pat <+: c :: rest ∨ containsL pat rest = true := by
        simpa [containsL] using h
      rcases h2 with hpre | hrest
      · obtain ⟨t, ht⟩ := hpre
        exact ⟨[], t, by simp [← ht]⟩
      · obtain ⟨s, t, hst⟩ := ih.mp hrest
        exact ⟨c :: s, t, by simp [hst]⟩
    · rintro ⟨s, t, hst⟩
      cases s with
      | nil =>
        have hpre : pat <+: c :: rest := ⟨t, by simp [hst]⟩
        simp [containsL, hpre]
      | cons c0 s0 =>
        have hc : c0 = c := by simpa using congrArg (fun l => l.head?) hst.symm
        have hrest : rest = s0 ++ pat ++ t := by
          have := congrArg List.tail hst
          simpa using this
        have := ih.mpr ⟨s0, t, hrest⟩
        simp [containsL, this]

theorem find?_congrList {α : Type} (p q : α → Bool) (l : List α)
    (h : ∀ a ∈ l, p a = q a) : l.find? p = l.find? q := by
  induction l with
  | nil => rfl
  | cons a t ih =>
    have ha := h a (List.mem_cons_self a t)
    simp only [List.find?_cons, ← ha]
    cases hpa : p a with
    | true => rfl
    | false => exact ih fun x hx => h x (List.mem_cons_of_mem a hx)

theorem mem_first_split (a : Char) (l : List Char) (h : a ∈ l) :
    ∃ v w, l = v ++ a :: w ∧ a ∉ v := by
  induction l with
  | nil => cases h
  | cons x t ih =>
    by_cases hx : x = a
    · exact ⟨[], t, by simp [hx], by simp⟩
    · have ht : a ∈ t := by
        rcases List.mem_cons.mp h with h1 | h1
        · exact absurd h1.symm hx
        · exact h1
      obtain ⟨v, w, hvw, hnv⟩ := ih ht
      refine ⟨x :: v, w, by simp [hvw], ?_⟩
      intro hmem
      rcases List.mem_cons.mp hmem with h1 | h1
      · exact hx h1.symm
      · exact hnv h1

theorem nextCloseGood_iff (l : List Char) :
    nextCloseGood l = true ↔ ∃ v w, l = v ++ ')' :: w ∧ v ≠ [] ∧ ')' ∉ v := by
  cases l with
  | nil =>
    simp only [nextCloseGood]
    constructor
    · intro h; cases h
    · rintro ⟨v, w, hvw, hv, hnv⟩
      exact absurd (List.append_eq_nil.mp hvw.symm).1 (by simp_all)
  | cons c t =>
    simp only [nextCloseGood, Bool.and_eq_true, List.any_eq_true, decide_eq_true_eq]
    constructor
    · rintro ⟨hc, x, hx, rfl⟩
      obtain ⟨v0, w, hvw, hnv⟩ := mem_first_split ')' t hx
      refine ⟨c :: v0, w, by simp [hvw], by simp, ?_⟩
      intro hmem
      rcases List.mem_cons.mp hmem with h1 | h1
      · exact hc (by simpa using h1.symm)
      · exact hnv h1
    · rintro ⟨v, w, hvw, hv, hnv⟩
      cases v with
      | nil => exact absurd rfl hv
      | cons cv v0 =>
        have hc : c = cv := by simpa using congrArg (fun l => l.head?) hvw
        have ht : t = v0 ++ ')' :: w := by simpa using congrArg List.tail hvw
        subst hc
        refine ⟨?_, ⟨')', by simp [ht], rfl⟩⟩
        intro hcp
        exact hnv (List.mem_cons.mpr (Or.inl hcp.symm))

theorem entriesFromPairs_mem (ps : List (List Char × List Char)) (e : Entry)
    (he : e ∈ entriesFromPairs ps) :
    ∃ rn blk, (rn, blk) ∈ ps ∧ 15 ≤ (pyStripL blk).length ∧ e = mkRegEntry rn blk := by
  induction ps with
  | nil => simp [entriesFromPairs] at he
  | cons p rest ih =>
    obtain ⟨rn, blk⟩ := p
    by_cases h15 : (pyStripL blk).length < 15
    · rw [entriesFromPairs, if_pos h15] at he
      obtain ⟨rn2, blk2, hmem, hlen, heq⟩ := ih he
      exact ⟨rn2, blk2, List.mem_cons_of_mem _ hmem, hlen, heq⟩
    · rw [entriesFromPairs, if_neg h15] at he
      rcases List.mem_cons.mp he with h1 | h1
      · exact ⟨rn, blk, List.mem_cons_self _ _, by omega, h1⟩
      · obtain ⟨rn2, blk2, hmem, hlen, heq⟩ := ih h1
        exact ⟨rn2, blk2, List.mem_cons_of_mem _ hmem, hlen, heq⟩

theorem hybridGo_no_cancel (cfg : Config) (pages : List PageSrc) :
    ∀ i, hybridGo cfg (fun _ => false) i pages = pages.map (page_text cfg) := by
  induction pages with
  | nil => intro i; rfl
  | cons p rest ih => intro i; simp [hybridGo, ih]

/-! ## C4: the Normalizer's conversion table -/

def recognizedUnits : List String :=
  ["q/ha","quintal/ha","quintals/ha","quintalperhectare",
   "t/ha","ton/ha","tons/ha","tonnes/ha",
   "kg/ha","kgs/ha","kilogram/ha",
   "q/acre","quintal/acre","quintals/acre",
   "t/acre","ton/acre","tons/acre",
   "kg/acre","kgs/acre"]

/-- C4: for every numeric value v, normalize(v, "t/ha") = 10·v,
normalize(v, "kg/ha") = v/100, normalize(v, "q/acre") = 2.47·v,
normalize(v, "t/acre") = 24.7·v, normalize(v, "kg/acre") = v/40.47, and
for "q/ha", a blank unit, or any unrecognized unit string the value is
returned unchanged. -/
theorem c4_normalize_units (v : ℚ) (u : String) (hu : canonUnit u ∉ recognizedUnits) :
    normalize_units v "t/ha" = 10 * v ∧
    normalize_units v "kg/ha" = v / 100 ∧
    normalize_units v "q/acre" = 2.47 * v ∧
    normalize_units v "t/acre" = 24.7 * v ∧
    normalize_units v "kg/acre" = v / 40.47 ∧
    normalize_units v "q/ha" = v ∧
    normalize_units v "" = v ∧
    normalize_units v u = v := by
  refine ⟨?_, ?_, ?_, ?_, ?_, ?_, ?_, ?_⟩
  · rw [normalize_units, show canonUnit "t/ha" = "t/ha" from by decide]
    rw [if_neg (by decide), if_pos (by decide)]
    ring
  · rw [normalize_units, show canonUnit "kg/ha" = "kg/ha" from by decide]
    rw [if_neg (by decide), if_neg (by decide), if_pos (by decide)]
  · rw [normalize_units, show canonUnit "q/acre" = "q/acre" from by decide]
    rw [if_neg (by decide), if_neg (by decide), if_neg (by decide), if_pos (by decide)]
    ring
  · rw [normalize_units, show canonUnit "t/acre" = "t/acre" from by decide]
    rw [if_neg (by decide), if_neg (by decide), if_neg (by decide), if_neg (by decide),
      if_pos (by decide)]
    ring
  · rw [normalize_units, show canonUnit "kg/acre" = "kg/acre" from by decide]
    rw [if_neg (by decide), if_neg (by decide), if_neg (by decide), if_neg (by decide),
      if_neg (by decide), if_pos (by decide)]
  · rw [normalize_units, show canonUnit "q/ha" = "q/ha" from by decide]
    rw [if_pos (by decide)]
  · rw [normalize_units, show canonUnit "" = "q/ha" from by decide]
    rw [if_pos (by decide)]
  · rw [normalize_units]
    have hmem : ∀ (l : List String), (∀ x ∈ l, x ∈ recognizedUnits) → canonUnit u ∉ l :=
      fun l hsub hin => hu (hsub _ hin)
    rw [if_neg (hmem _ (by decide)), if_neg (hmem _ (by decide)), if_neg (hmem _ (by decide)),
      if_neg (hmem _ (by decide)), if_neg (hmem _ (by decide)), if_neg (hmem _ (by decide))]

/-- C4 witness at v = 3 and the unrecognized unit "bushel/acre". -/
theorem c4_normalize_units_witness :
    normalize_units 3 "t/ha" = 10 * 3 ∧
    normalize_units 3 "kg/ha" = 3 / 100 ∧
    normalize_units 3 "q/acre" = 2.47 * 3 ∧
    normalize_units 3 "t/acre" = 24.7 * 3 ∧
    normalize_units 3 "kg/acre" = 3 / 40.47 ∧
    normalize_units 3 "q/ha" = 3 ∧
    normalize_units 3 "" = 3 ∧
    normalize_units 3 "bushel/acre" = 3 :=
  c4_normalize_units 3 "bushel/acre" (by decide)

/-! ## C9: page-level OCR failures degrade to the inline marker -/

/-- C9: an OCR or render failure during single-page OCR never escapes the
page boundary: the page's slot in the batch holds the inline diagnostic
marker string for the error, the batch keeps its full length (it
continues), and the hybrid path likewise turns a failing OCR fallback
into the marker instead of raising. -/
theorem c9_ocr_error_marker (doc : List (Except String String)) (cfg : Config)
    (i : ℕ) (msg : String)
    (hi : (ocrSelected doc cfg)[i]? = some (Except.error msg)) :
    (ocr_document doc cfg).length = (ocrSelected doc cfg).length ∧
    (ocr_document doc cfg)[i]? = some ("[OCR ERROR: " ++ msg ++ "]") ∧
    (∀ p : PageSrc, (digital_text p).length < 150 → p.ocrOutcome = Except.error msg →
      page_text cfg p = "[OCR ERROR: " ++ msg ++ "]") := by
  refine ⟨List.length_map _ _, ?_, ?_⟩
  · rw [ocr_document, List.getElem?_map, hi]
    rfl
  · intro p hlen hout
    rw [page_text, if_pos hlen, hout]
    rfl

/-- C9 witness: a three-page OCR batch whose second page raises. -/
theorem c9_ocr_error_marker_witness :
    (ocr_document [Except.ok "x", Except.error "boom", Except.ok "y"] {}).length =
      (ocrSelected [Except.ok "x", Except.error "boom", Except.ok "y"] {}).length ∧
    (ocr_document [Except.ok "x", Except.error "boom", Except.ok "y"] {})[1]? =
      some ("[OCR ERROR: " ++ "boom" ++ "]") ∧
    (∀ p : PageSrc, (digital_text p).length < 150 → p.ocrOutcome = Except.error "boom" →
      page_text {} p = "[OCR ERROR: " ++ "boom" ++ "]") :=
  c9_ocr_error_marker [Except.ok "x", Except.error "boom", Except.ok "y"] {} 1 "boom" rfl

/-! ## C2 and C3: hybrid acquisition, cancellation and page limits -/

/-- Five pages whose digital text is long enough to skip the OCR
fallback. -/
def fiveDigitalPages : List PageSrc :=
  List.replicate 5 { digital := String.mk (List.replicate 160 'a'), ocrOutcome := Except.ok "t" }

/-- The cancellation predicate of Scenario D, polled per iteration: false
for the first two polls, true from the third on. -/
def cancelAfterTwo : ℕ → Bool := fun i => decide (2 ≤ i)

/-- C2 counterexample: with cancellation observed at the third poll of a
5-page document, the hybrid entry point returns a 2-element list — not a
5-element list padded with empty strings. -/
theorem c2_hybrid_cancel_counterexample :
    (hybrid_extract_text fiveDigitalPages {} cancelAfterTwo).length = 2 ∧
    (hybrid_extract_text fiveDigitalPages {} cancelAfterTwo).length ≠ 5 := by
  constructor
  · decide
  · decide

/-- C2 amended: when the cancellation predicate is false at the first two
polls and true at the third, the hybrid entry point of a 5-page document
returns exactly the 2 page texts produced before cancellation (and no
padding); the index-aligned empty-string padding belongs to the OCR-only
entry point, which preallocates its output array. -/
theorem c2_hybrid_cancel_amended (pages : List PageSrc) (cfg : Config) (cancel : ℕ → Bool)
    (h5 : pages.length = 5) (h0 : cancel 0 = false) (h1 : cancel 1 = false)
    (h2 : cancel 2 = true) :
    hybrid_extract_text pages cfg cancel = (pages.take 2).map (page_text cfg) ∧
    (hybrid_extract_text pages cfg cancel).length = 2 := by
  rcases pages with _ | ⟨p0, _ | ⟨p1, _ | ⟨p2, _ | ⟨p3, _ | ⟨p4, rest⟩⟩⟩⟩⟩ <;>
    simp_all [hybrid_extract_text, hybridGo]

/-- C2 witness at the concrete 5-page document. -/
theorem c2_hybrid_cancel_amended_witness :
    hybrid_extract_text fiveDigitalPages {} cancelAfterTwo =
      (fiveDigitalPages.take 2).map (page_text {}) ∧
    (hybrid_extract_text fiveDigitalPages {} cancelAfterTwo).length = 2 :=
  c2_hybrid_cancel_amended fiveDigitalPages {} cancelAfterTwo (by decide) rfl rfl rfl

/-- C3: the hybrid entry point used by the pipeline always produces one
text per page of the entire document, ignoring `MAX_PAGES`; at the
failing input (5-page document, `MAX_PAGES = 2`) it yields 5 texts where
the claim requires min 2 5 = 2.  The OCR-only entry point does honour the
limit. -/
theorem c3_max_pages_ignored :
    (∀ (pages : List PageSrc) (cfg : Config),
      (hybrid_extract_text pages cfg (fun _ => false)).length = pages.length) ∧
    (hybrid_extract_text fiveDigitalPages { MAX_PAGES := some 2 } (fun _ => false)).length = 5 ∧
    min 2 fiveDigitalPages.length = 2 ∧
    (∀ (doc : List (Except String String)) (n : ℕ),
      (ocr_document doc { MAX_PAGES := some n }).length = min n doc.length ∧
      (ocr_document doc {}).length = doc.length) := by
  refine ⟨?_, by decide, by decide, ?_⟩
  · intro pages cfg
    rw [hybrid_extract_text, hybridGo_no_cancel]
    exact List.length_map _ _
  · intro doc n
    constructor
    · simp [ocr_document, ocrSelected]
    · simp [ocr_document, ocrSelected]

/-! ## C8: the Segmenter's noise filter and zero-anchor behaviour -/

/-- C8: every Entry produced from a page text arises from an anchored
span whose trimmed length is at least 15 — shorter spans are discarded
before classification — and a page text with no registration-anchor
match produces zero entries (without error: the function is total). -/
theorem c8_segmenter (t : String) :
    (∀ e ∈ parse_entries_from_text t,
      ∃ rn blk, (rn, blk) ∈ anchorPairs (strip_non_english t).toList ∧
        15 ≤ (pyStripL blk).length ∧ e = mkRegEntry rn blk) ∧
    (anchorPairs (strip_non_english t).toList = [] → parse_entries_from_text t = []) := by
  constructor
  · intro e he
    exact entriesFromPairs_mem _ e he
  · intro h
    rw [parse_entries_from_text, h]
    rfl

/-- C8 witness: an anchor-free page yields zero entries. -/
theorem c8_segmenter_witness :
    parse_entries_from_text "a page with no registration tokens at all" = [] :=
  (c8_segmenter "a page with no registration tokens at all").2 (by decide)

/-! ## C7: deduplication keeps the first entry per registration id -/

theorem dedupFirst_find (l : List Entry) (seen : List String) (e : Entry)
    (he : e ∈ dedupFirst l seen) :
    e.Reg_No ∉ seen ∧ l.find? (fun x => x.Reg_No == e.Reg_No) = some e := by
  induction l generalizing seen with
  | nil => simp [dedupFirst] at he
  | cons x rest ih =>
    by_cases hx : x.Reg_No ∈ seen
    · rw [dedupFirst, if_pos hx] at he
      obtain ⟨hseen, hfind⟩ := ih seen he
      refine ⟨hseen, ?_⟩
      have hne : (x.Reg_No == e.Reg_No) = false := by
        rcases hb : x.Reg_No == e.Reg_No with _ | _
        · rfl
        · exact absurd (eq_of_beq hb ▸ hx) hseen
      simp [List.find?_cons, hne, hfind]
    · rw [dedupFirst, if_neg hx] at he
      rcases List.mem_cons.mp he with h1 | h1
      · subst h1
        exact ⟨hx, by simp [List.find?_cons]⟩
      · obtain ⟨hseen, hfind⟩ := ih (x.Reg_No :: seen) h1
        have hne2 : e.Reg_No ≠ x.Reg_No := fun hEq => hseen (by simp [hEq])
        have hnseen : e.Reg_No ∉ seen := fun hIn => hseen (List.mem_cons_of_mem _ hIn)
        have hne : (x.Reg_No == e.Reg_No) = false := by
          rcases hb : x.Reg_No == e.Reg_No with _ | _
          · rfl
          · exact absurd (eq_of_beq hb).symm hne2
        exact ⟨hnseen, by simp [List.find?_cons, hne, hfind]⟩

theorem dedupFirst_nodup (l : List Entry) (seen : List String) :
    ((dedupFirst l seen).map Entry.Reg_No).Nodup := by
  induction l generalizing seen with
  | nil => simp [dedupFirst]
  | cons x rest ih =>
    by_cases hx : x.Reg_No ∈ seen
    · rw [dedupFirst, if_pos hx]
      exact ih seen
    · rw [dedupFirst, if_neg hx]
      simp only [List.map_cons, List.nodup_cons]
      refine ⟨?_, ih (x.Reg_No :: seen)⟩
      intro hmem
      obtain ⟨e2, he2, hkey⟩ := List.mem_map.mp hmem
      have := (dedupFirst_find rest (x.Reg_No :: seen) e2 he2).1
      exact this (by simp [hkey])

theorem dedupFirst_covers (l : List Entry) (seen : List String) :
    ∀ e ∈ l, e.Reg_No ∈ seen ∨ ∃ e2 ∈ dedupFirst l seen, e2.Reg_No = e.Reg_No := by
  induction l generalizing seen with
  | nil => intro e he; cases he
  | cons x rest ih =>
    intro e he
    by_cases hx : x.Reg_No ∈ seen
    · rw [dedupFirst, if_pos hx]
      rcases List.mem_cons.mp he with h1 | h1
      · subst h1; exact Or.inl hx
      · exact ih seen e h1
    · rw [dedupFirst, if_neg hx]
      rcases List.mem_cons.mp he with h1 | h1
      · exact Or.inr ⟨x, List.mem_cons_self _ _, (congrArg Entry.Reg_No h1).symm⟩
      · rcases ih (x.Reg_No :: seen) e h1 with h2 | ⟨e2, he2, hkey⟩
        · rcases List.mem_cons.mp h2 with h3 | h3
          · exact Or.inr ⟨x, List.mem_cons_self _ _, h3.symm⟩
          · exact Or.inl h3
        · exact Or.inr ⟨e2, List.mem_cons_of_mem _ he2, hkey⟩

theorem dedupFirst_subset (l : List Entry) (seen : List String) :
    ∀ e ∈ dedupFirst l seen, e ∈ l := by
  induction l generalizing seen with
  | nil => simp [dedupFirst]
  | cons x rest ih =>
    intro e he
    by_cases hx : x.Reg_No ∈ seen
    · rw [dedupFirst, if_pos hx] at he
      exact List.mem_cons_of_mem _ (ih seen e he)
    · rw [dedupFirst, if_neg hx] at he
      rcases List.mem_cons.mp he with h1 | h1
      · exact h1 ▸ List.mem_cons_self _ _
      · exact List.mem_cons_of_mem _ (ih (x.Reg_No :: seen) e h1)

/-- C7: in the final table the registration anchor id is unique across
rows, every kept row is exactly the first row with its anchor id in
page-then-appearance order (`pageRows` lists pages in order and each
page's entries in appearance order), and every parsed row is represented
by some kept row with the same anchor id. -/
theorem c7_dedup_first (texts : List String) :
    ((extract_table texts).map Entry.Reg_No).Nodup ∧
    (∀ e ∈ extract_table texts,
      (pageRows texts).find? (fun x => x.Reg_No == e.Reg_No) = some e) ∧
    (∀ e ∈ pageRows texts, ∃ e2 ∈ extract_table texts, e2.Reg_No = e.Reg_No) := by
  refine ⟨dedupFirst_nodup _ _, ?_, ?_⟩
  · intro e he
    exact (dedupFirst_find _ [] e he).2
  · intro e he
    rcases dedupFirst_covers (pageRows texts) [] e he with h | h
    · cases h
    · exact h

/-- C7 witness: two pages carrying the same registration id collapse to
the first occurrence. -/
def dupRegTexts : List String :=
  ["REG/2009/1 first block long enough text", "REG/2009/1 second block long enough text"]

theorem c7_dedup_first_witness :
    ((extract_table dupRegTexts).map Entry.Reg_No).Nodup ∧
    (pageRows dupRegTexts).find?
      (fun x => x.Reg_No == ((pageRows dupRegTexts).getD 0 default).Reg_No) =
      some ((pageRows dupRegTexts).getD 0 default) ∧
    (∃ e2 ∈ extract_table dupRegTexts,
      e2.Reg_No = ((pageRows dupRegTexts).getD 1 default).Reg_No) := by
  refine ⟨(c7_dedup_first dupRegTexts).1, ?_, ?_⟩
  · have h0 : (pageRows dupRegTexts).getD 0 default ∈ extract_table dupRegTexts := by decide
    exact (c7_dedup_first dupRegTexts).2.1 _ h0
  · have h1 : (pageRows dupRegTexts).getD 1 default ∈ pageRows dupRegTexts := by decide
    exact (c7_dedup_first dupRegTexts).2.2 _ h1

/-! ## C10: detected productivity values always lie in [5, 150] -/

theorem rhe100_fdiv_le_iff (q : ℚ) (z : ℤ) :
    z ≤ (100 * q.num).fdiv (q.den : ℤ) ↔ (z : ℚ) ≤ 100 * q := by
  have hd : (0 : ℤ) < (q.den : ℤ) := by exact_mod_cast q.den_pos
  rw [Int.fdiv_eq_ediv _ hd.le, Int.le_ediv_iff_mul_le hd]
  have hq : (q.num : ℚ) / (q.den : ℚ) = q := Rat.num_div_den q
  have hdQ : (0 : ℚ) < (q.den : ℚ) := by exact_mod_cast q.den_pos
  constructor
  · intro h
    rw [← hq, ← mul_div_assoc, le_div_iff₀ hdQ]
    exact_mod_cast h
  · intro h
    rw [← hq, ← mul_div_assoc, le_div_iff₀ hdQ] at h
    exact_mod_cast h

theorem rhe100_bounds (q : ℚ) (h5 : 5 ≤ q) (h150 : q ≤ 150) :
    500 ≤ rhe100 q ∧ rhe100 q ≤ 15000 := by
  have hiff := rhe100_fdiv_le_iff q
  have ha : (500 : ℚ) ≤ 100 * q := by linarith
  have hb : 100 * q ≤ 15000 := by linarith
  have hf500 : 500 ≤ (100 * q.num).fdiv (q.den : ℤ) := by
    refine (hiff 500).mpr ?_
    exact_mod_cast ha
  have hf15000 : (100 * q.num).fdiv (q.den : ℤ) ≤ 15000 := by
    by_contra hcon
    push_neg at hcon
    have h2 : ((15001 : ℤ) : ℚ) ≤ 100 * q := (hiff 15001).mp (by omega)
    push_cast at h2
    linarith
  have hd : (0 : ℤ) < (q.den : ℤ) := by exact_mod_cast q.den_pos
  have hdQ : (0 : ℚ) < (q.den : ℚ) := by exact_mod_cast q.den_pos
  have hnd : ((100 * q.num : ℤ) : ℚ) / ((q.den : ℤ) : ℚ) = 100 * q := by
    push_cast
    rw [mul_div_assoc, Rat.num_div_den]
  rw [rhe100]
  split_ifs with hb1 hb2 hb3
  · exact ⟨hf500, hf15000⟩
  · -- carry branch: the remainder is at least half of the denominator
    push_neg at hb1
    have hkey : (100 * q.num).fdiv (q.den : ℤ) ≤ 14999 := by
      set f := (100 * q.num).fdiv (q.den : ℤ) with hfdef
      have hmul : (f * (q.den : ℤ) : ℤ) ≤ 100 * q.num := by
        have := (hiff f).mp le_rfl
        have h2 : (f : ℚ) * (q.den : ℚ) ≤ (100 * q : ℚ) * (q.den : ℚ) := by
          apply mul_le_mul_of_nonneg_right this hdQ.le
        have h3 : ((100 : ℚ) * q) * (q.den : ℚ) = ((100 * q.num : ℤ) : ℚ) := by
          rw [← hnd]
          field_simp
        rw [h3] at h2
        exact_mod_cast h2
      have hstep : (2 * f + 1) * (q.den : ℤ) ≤ 2 * (100 * q.num) := by nlinarith
      have hcast : ((2 * f + 1 : ℤ) : ℚ) ≤ 2 * (100 * q) := by
        have h4 : ((2 * f + 1 : ℤ) : ℚ) * (q.den : ℚ) ≤ ((2 * (100 * q.num) : ℤ) : ℚ) := by
          exact_mod_cast hstep
        have h5' : ((2 * (100 * q.num) : ℤ) : ℚ) = 2 * (100 * q) * (q.den : ℚ) := by
          push_cast
          rw [← hnd]
          push_cast
          field_simp
        rw [h5'] at h4
        exact le_of_mul_le_mul_right h4 hdQ
      have h6 : ((2 * f + 1 : ℤ) : ℚ) ≤ 30000 := by linarith
      have h7 : (2 * f + 1 : ℤ) ≤ 30000 := by exact_mod_cast h6
      omega
    constructor
    · omega
    · omega
  · exact ⟨hf500, hf15000⟩
  · -- even-tie carry branch: the remainder equals half of the denominator
    push_neg at hb1 hb2
    have hkey : (100 * q.num).fdiv (q.den : ℤ) ≤ 14999 := by
      set f := (100 * q.num).fdiv (q.den : ℤ) with hfdef
      have hmul : (f * (q.den : ℤ) : ℤ) ≤ 100 * q.num := by
        have := (hiff f).mp le_rfl
        have h2 : (f : ℚ) * (q.den : ℚ) ≤ (100 * q : ℚ) * (q.den : ℚ) := by
          apply mul_le_mul_of_nonneg_right this hdQ.le
        have h3 : ((100 : ℚ) * q) * (q.den : ℚ) = ((100 * q.num : ℤ) : ℚ) := by
          rw [← hnd]
          field_simp
        rw [h3] at h2
        exact_mod_cast h2
      have hstep : (2 * f + 1) * (q.den : ℤ) ≤ 2 * (100 * q.num) := by nlinarith
      have hcast : ((2 * f + 1 : ℤ) : ℚ) ≤ 2 * (100 * q) := by
        have h4 : ((2 * f + 1 : ℤ) : ℚ) * (q.den : ℚ) ≤ ((2 * (100 * q.num) : ℤ) : ℚ) := by
          exact_mod_cast hstep
        have h5' : ((2 * (100 * q.num) : ℤ) : ℚ) = 2 * (100 * q) * (q.den : ℚ) := by
          push_cast
          rw [← hnd]
          push_cast
          field_simp
        rw [h5'] at h4
        exact le_of_mul_le_mul_right h4 hdQ
      have h6 : ((2 * f + 1 : ℤ) : ℚ) ≤ 30000 := by linarith
      have h7 : (2 * f + 1 : ℤ) ≤ 30000 := by exact_mod_cast h6
      omega
    constructor
    · omega
    · omega

theorem pyRound2_range (q : ℚ) (h5 : 5 ≤ q) (h150 : q ≤ 150) :
    5 ≤ pyRound2 q ∧ pyRound2 q ≤ 150 := by
  obtain ⟨ha, hb⟩ := rhe100_bounds q h5 h150
  have ha' : (500 : ℚ) ≤ (rhe100 q : ℚ) := by exact_mod_cast ha
  have hb' : ((rhe100 q : ℚ)) ≤ 15000 := by exact_mod_cast hb
  rw [pyRound2]
  constructor
  · rw [le_div_iff₀ (by norm_num : (0:ℚ) < 100)]
    linarith
  · rw [div_le_iff₀ (by norm_num : (0:ℚ) < 100)]
    linarith

theorem prodTier2_range (b : String) :
    prodTier2 b = (ProdVal.na, "Low") ∨
    ∃ x, (prodTier2 b).1 = ProdVal.qha x ∧ 5 ≤ x ∧ x ≤ 150 := by
  simp only [prodTier2]
  cases hf : ((clean_lines b).drop ((clean_lines b).length - 5)).find? loneNumInRange with
  | none => left; rfl
  | some ln =>
    right
    have hln : loneNumInRange ln = true := List.find?_some hf
    rw [loneNumInRange] at hln
    cases hp : loneNumParts ln with
    | none => rw [hp] at hln; cases hln
    | some pair =>
      obtain ⟨ds, fs⟩ := pair
      rw [hp] at hln
      have hrange : 5 ≤ ratOfNumParts ds fs ∧ ratOfNumParts ds fs ≤ 150 :=
        of_decide_eq_true hln
      refine ⟨ratOfNumParts ds fs, ?_, hrange.1, hrange.2⟩
      simp [loneNumVal, hp]

theorem detect_productivity_range (block : String) :
    detect_productivity block = (ProdVal.na, "Low") ∨
    ∃ x, (detect_productivity block).1 = ProdVal.qha x ∧ 5 ≤ x ∧ x ≤ 150 := by
  simp only [detect_productivity]
  split
  next m hm =>
    by_cases hq : 5 ≤ normalize_units (ratOfNumParts m.1 m.2.1) m.2.2 ∧
        normalize_units (ratOfNumParts m.1 m.2.1) m.2.2 ≤ 150
    · right
      rw [if_pos hq]
      exact ⟨pyRound2 (normalize_units (ratOfNumParts m.1 m.2.1) m.2.2), rfl,
        (pyRound2_range _ hq.1 hq.2).1, (pyRound2_range _ hq.1 hq.2).2⟩
    · rw [if_neg hq]
      exact prodTier2_range (strip_non_english block)
  next hm => exact prodTier2_range (strip_non_english block)

theorem parse_block_prod (b : String) :
    (parse_block b).Productivity = ProdVal.na ∨
    ∃ x, (parse_block b).Productivity = ProdVal.qha x ∧ 5 ≤ x ∧ x ≤ 150 := by
  simp only [parse_block]
  by_cases hl : (clean_lines (strip_non_english b)).isEmpty
  · rw [if_pos hl]
    left
    rfl
  · rw [if_neg hl]
    rcases detect_productivity_range (strip_non_english b) with h | ⟨x, hx, h1, h2⟩
    · left
      show (detect_productivity (strip_non_english b)).1 = ProdVal.na
      rw [h]
    · right
      exact ⟨x, hx, h1, h2⟩

theorem not_mem_flag_ite (c : Prop) [Decidable c] (s fl : String) (hne : fl ≠ s) :
    fl ∉ (if c then [s] else []) := by
  intro hmem
  split at hmem
  · exact hne (List.mem_singleton.mp hmem)
  · exact List.not_mem_nil _ hmem

theorem no_oor_flag (e : Entry)
    (h : ∀ v, e.Productivity = ProdVal.qha v → 5 ≤ v ∧ v ≤ 150) :
    "productivity_out_of_range" ∉ row_audit_flags e := by
  intro hmem
  rw [row_audit_flags] at hmem
  rcases List.mem_append.mp hmem with hL1 | h6
  swap
  · exact not_mem_flag_ite _ "cotton_taxonomy_unknown" "productivity_out_of_range"
      (by decide) h6
  rcases List.mem_append.mp hL1 with hL2 | h5
  swap
  · exact not_mem_flag_ite _ "applicant_missing" "productivity_out_of_range" (by decide) h5
  rcases List.mem_append.mp hL2 with hL3 | h4
  swap
  · split at h4
    · exact absurd (List.mem_singleton.mp h4) (by decide)
    · next v heq =>
        rw [if_neg (not_not_intro (h v heq))] at h4
        exact List.not_mem_nil _ h4
  rcases List.mem_append.mp hL3 with hL4 | h3
  swap
  · exact not_mem_flag_ite _ "variety_type_missing" "productivity_out_of_range"
      (by decide) h3
  rcases List.mem_append.mp hL4 with h1 | h2
  · exact not_mem_flag_ite _ "no_variety_name" "productivity_out_of_range" (by decide) h1
  · exact not_mem_flag_ite _ "crop_unknown" "productivity_out_of_range" (by decide) h2

theorem mem_extract_table_prod (texts : List String) (e : Entry)
    (he : e ∈ extract_table texts) :
    ∀ v, e.Productivity = ProdVal.qha v → 5 ≤ v ∧ v ≤ 150 := by
  have h1 : e ∈ pageRows texts := dedupFirst_subset _ _ e he
  rw [pageRows] at h1
  obtain ⟨it, hit, hmem⟩ := List.mem_flatMap.mp h1
  obtain ⟨e0, he0, heq⟩ := List.mem_map.mp hmem
  rw [parse_entries_from_text] at he0
  obtain ⟨rn, blk, hpair, hlen, he0eq⟩ := entriesFromPairs_mem _ e0 he0
  have hupdPage : ∀ (x : Entry) (n : ℕ),
      ({ x with Page_Number := n } : Entry).Productivity = x.Productivity := fun x n => rfl
  have hupdReg : ∀ (x : Entry) (r : String),
      ({ x with Reg_No := r } : Entry).Productivity = x.Productivity := fun x r => rfl
  have hprod : e.Productivity = (parse_block (String.mk blk)).Productivity := by
    rw [← heq, hupdPage, he0eq, mkRegEntry, hupdReg]
  intro v hv
  rcases parse_block_prod (String.mk blk) with hna | ⟨x, hx, hx1, hx2⟩
  · rw [hprod, hna] at hv
    cases hv
  · rw [hprod, hx] at hv
    injection hv with hxy
    subst hxy
    exact ⟨hx1, hx2⟩

/-- C10: the productivity detector only ever returns the sentinel (with
confidence "Low") or a quintal-per-hectare value inside [5, 150]; hence
the out-of-range audit flag can never fire on an entry produced by the
classifier chain, nor on any row of the final table. -/
theorem c10_productivity_range :
    (∀ block : String,
      detect_productivity block = (ProdVal.na, "Low") ∨
      ∃ x, (detect_productivity block).1 = ProdVal.qha x ∧ 5 ≤ x ∧ x ≤ 150) ∧
    (∀ b : String, "productivity_out_of_range" ∉ row_audit_flags (parse_block b)) ∧
    (∀ texts : List String, ∀ e ∈ extract_table texts,
      "productivity_out_of_range" ∉ row_audit_flags e) := by
  refine ⟨detect_productivity_range, ?_, ?_⟩
  · intro b
    apply no_oor_flag
    intro v hv
    rcases parse_block_prod b with hna | ⟨x, hx, hx1, hx2⟩
    · rw [hna] at hv
      cases hv
    · rw [hx] at hv
      injection hv with hxy
      subst hxy
      exact ⟨hx1, hx2⟩
  · intro texts e he
    exact no_oor_flag e (mem_extract_table_prod texts e he)

/-- C10 witness: a concrete parsed table row carries no out-of-range
flag. -/
def noNumberTexts : List String := ["REG/2009/7 a reasonably long block with no numbers"]

theorem c10_productivity_range_witness :
    "productivity_out_of_range" ∉
      row_audit_flags ((extract_table noNumberTexts).getD 0 default) :=
  c10_productivity_range.2.2 noNumberTexts _ (by decide)

/-! ## C5: crop classification -/

/-- Claim-side scanner: `w` at the current position with word boundaries
on both sides. -/
def specWWGo (w : List Char) : Option Char → List Char → Bool
  | _, [] => false
  | prev, c :: rest =>
    (boundaryBefore prev && w.isPrefixOf (c :: rest) && boundaryAfter ((c :: rest).drop w.length))
    || specWWGo w (some c) rest

/-- Following the claim's wording for C5: the word occurs as a whole word,
case-insensitively, anywhere in the block (regardless of surrounding
punctuation or line breaks). -/
def specWholeWordOccurs (w block : String) : Bool :=
  specWWGo (lowerL w.toList) none (lowerL block.toList)

/-- C5 counterexample: in the block "Rice\nNotified" the lexicon word
"rice" occurs as a whole word (line-break-adjacent), yet `infer_crop`
returns "NA", not the capitalization "Rice": the scan only recognizes
space-delimited occurrences. -/
theorem c5_whole_word_counterexample :
    specWholeWordOccurs "rice" "Rice\nNotified" = true ∧
    infer_crop "Rice\nNotified" = "NA" ∧
    infer_crop "Rice\nNotified" ≠ capitalizeStr "rice" :=
  ⟨by decide, by decide, by decide⟩

/-- The occurrence condition `infer_crop` actually tests: one space, the
word, one space as a contiguous sublist of the lowercased block padded
with a single space at each end. -/
def SpaceDelimOcc (w block : String) : Prop :=
  ∃ s t, ' ' :: lowerL block.toList ++ [' '] = s ++ (' ' :: w.toList ++ [' ']) ++ t

instance (w block : String) : Decidable (SpaceDelimOcc w block) :=
  decidable_of_iff _
    (containsL_iff (' ' :: w.toList ++ [' ']) (' ' :: lowerL block.toList ++ [' ']))

/-- C5 amended: crop classification returns the capitalization of the
first lexicon word (in lexicon order) that occurs space-delimited in the
space-padded lowercased block; when no lexicon word occurs that way, the
ploidy regular expressions decide "Cotton", else "NA". -/
theorem c5_infer_crop_amended (block : String) :
    infer_crop block =
      match CROP_WORDS.find? (fun w => decide (SpaceDelimOcc w block)) with
      | some w => capitalizeStr w
      | none =>
        if scanPloidy 't' "tetraploid".toList none (' ' :: lowerL block.toList ++ [' ']) ||
            scanPloidy 'd' "diploid".toList none (' ' :: lowerL block.toList ++ [' ']) then
          "Cotton"
        else "NA" := by
  have hcongr : CROP_WORDS.find?
      (fun w => containsL (' ' :: w.toList ++ [' ']) (' ' :: lowerL block.toList ++ [' '])) =
      CROP_WORDS.find? (fun w => decide (SpaceDelimOcc w block)) := by
    apply find?_congrList
    intro w hw
    by_cases h : SpaceDelimOcc w block
    · have hb := (containsL_iff (' ' :: w.toList ++ [' ']) (' ' :: lowerL block.toList ++ [' '])).mpr h
      rw [hb, decide_eq_true h]
    · have hb : containsL (' ' :: w.toList ++ [' ']) (' ' :: lowerL block.toList ++ [' ']) = false := by
        cases hx : containsL (' ' :: w.toList ++ [' ']) (' ' :: lowerL block.toList ++ [' ']) with
        | false => rfl
        | true => exact absurd ((containsL_iff _ _).mp hx) h
      rw [hb, decide_eq_false h]
  simp only [infer_crop]
  rw [hcongr]
  cases CROP_WORDS.find? (fun w => decide (SpaceDelimOcc w block)) with
  | some w => rfl
  | none =>
    cases ht : scanPloidy 't' "tetraploid".toList none (' ' :: lowerL block.toList ++ [' ']) <;>
      cases hd : scanPloidy 'd' "diploid".toList none (' ' :: lowerL block.toList ++ [' ']) <;>
      simp [ht, hd]

/-! ## C6: variety-name extension conditions -/

/-- Claim-side helper (C6): the content of a parenthetical starting here,
if any. -/
def spanToClose (l : List Char) : Option (List Char) :=
  let w := l.takeWhile (fun c => c ≠ ')')
  if !w.isEmpty && w.length < l.length then some w else none

/-- Claim-side helper (C6): the contents of every parenthetical of the
line. -/
def parenContentsGo : List Char → List (List Char)
  | [] => []
  | c :: rest =>
    (if c = '(' then
       (match spanToClose rest with
        | some w => [w]
        | none => []) else []) ++ parenContentsGo rest

/-- Following the claim's wording for C6: the second line contains a
parenthetical code not equal to any variety-type keyword. -/
def specParenCodeOk (s : String) : Bool :=
  (parenContentsGo s.toList).any (fun w =>
    decide (w ≠ "Extant".toList) && decide (w ≠ "Notified".toList) &&
    decide (w ≠ "New".toList) && decide (w ≠ "Hybrid".toList))

/-- Following the claim's wording for C6: join first and second line
exactly when (a) the second line holds a parenthetical code differing
from every variety-type keyword and is under 50 characters, or (b) it is
at most 30 characters and the first line lacks terminal punctuation. -/
def specC6VarietyName (lines : List String) : String :=
  match lines with
  | [] => "NA"
  | [l0] => pyStrip l0
  | l0 :: l1 :: _ =>
    if (specParenCodeOk l1 && l1.length < 50) || (l1.length ≤ 30 && !endsWithPunct l0) then
      joinTwo l0 l1
    else pyStrip l0

/-- C6 counterexample: a second line "(Hybrid) ..." of 35 characters after
a punctuation-terminated first line.  The claim (parenthetical equal to
the variety-type keyword Hybrid, and too long for rule (b)) keeps the
first line alone; the code's lookahead excludes only Notified, Extant and
New, so it joins the two lines. -/
theorem c6_paren_keyword_counterexample :
    extract_variety_name ["Name.", "(Hybrid) abcdefghijklmnopqrstuvwxyz"] =
      "Name. (Hybrid) abcdefghijklmnopqrstuvwxyz" ∧
    specC6VarietyName ["Name.", "(Hybrid) abcdefghijklmnopqrstuvwxyz"] = "Name." ∧
    ("Name. (Hybrid) abcdefghijklmnopqrstuvwxyz" : String) ≠ "Name." :=
  ⟨by decide, by decide, by decide⟩

theorem parenCodeScan_iff (l : List Char) :
    parenCodeScan l = true ↔
    ∃ u v w, l = u ++ '(' :: (v ++ ')' :: w) ∧ v ≠ [] ∧ ')' ∉ v ∧
      startsForbidden (v ++ ')' :: w) = false := by
  induction l with
  | nil =>
    constructor
    · intro h
      cases h
    · rintro ⟨u, v, w, hl, -, -, -⟩
      exact absurd (List.append_eq_nil.mp hl.symm).2 (by simp)
  | cons c rest ih =>
    rw [parenCodeScan]
    constructor
    · intro hor
      simp only [Bool.or_eq_true, Bool.and_eq_true, decide_eq_true_eq,
        Bool.not_eq_true'] at hor
      rcases hor with ⟨⟨hc, hsf⟩, hncg⟩ | hrest
      · obtain ⟨v, w, hvw, hv, hnv⟩ := (nextCloseGood_iff rest).mp hncg
        refine ⟨[], v, w, by simp [hc, hvw], hv, hnv, ?_⟩
        rw [← hvw]
        exact hsf
      · obtain ⟨u, v, w, h1, h2, h3, h4⟩ := ih.mp hrest
        exact ⟨c :: u, v, w, by simp [h1], h2, h3, h4⟩
    · rintro ⟨u, v, w, hl, hv, hnv, hsf⟩
      cases u with
      | nil =>
        have hc : c = '(' := by simpa using congrArg (fun x => x.head?) hl
        have hrest : rest = v ++ ')' :: w := by simpa using congrArg List.tail hl
        have hncg : nextCloseGood rest = true :=
          (nextCloseGood_iff rest).mpr ⟨v, w, hrest, hv, hnv⟩
        have hsf2 : startsForbidden rest = false := by rw [hrest]; exact hsf
        simp [hc, hncg, hsf2]
      | cons c0 u0 =>
        have hrest : rest = u0 ++ '(' :: (v ++ ')' :: w) := by
          simpa using congrArg List.tail hl
        have := ih.mpr ⟨u0, v, w, hrest, hv, hnv, hsf⟩
        simp [this]

theorem startsForbidden_false_iff (l : List Char) :
    startsForbidden l = false ↔
    ¬("Notified".toList <+: l) ∧ ¬("Extant".toList <+: l) ∧ ¬("New".toList <+: l) := by
  rw [startsForbidden]
  simp only [Bool.or_eq_false_iff]
  rw [← Bool.not_eq_true, ← Bool.not_eq_true, ← Bool.not_eq_true]
  rw [List.isPrefixOf_iff_prefix, List.isPrefixOf_iff_prefix, List.isPrefixOf_iff_prefix]
  tauto

/-- The declarative version of the parenthetical condition the code's
regular expression tests on the second line. -/
def CodeParenOcc (s : String) : Prop :=
  ∃ u v w, s.toList = u ++ '(' :: (v ++ ')' :: w) ∧ v ≠ [] ∧ ')' ∉ v ∧
    ¬("Notified".toList <+: (v ++ ')' :: w)) ∧ ¬("Extant".toList <+: (v ++ ')' :: w)) ∧
    ¬("New".toList <+: (v ++ ')' :: w))

theorem codeParenOcc_iff (s : String) : parenCodeScan s.toList = true ↔ CodeParenOcc s := by
  rw [parenCodeScan_iff, CodeParenOcc]
  apply exists_congr
  intro u
  apply exists_congr
  intro v
  apply exists_congr
  intro w
  rw [startsForbidden_false_iff]

instance (s : String) : Decidable (CodeParenOcc s) :=
  decidable_of_iff _ (codeParenOcc_iff s)

/-- C6 amended: for a line list with at least two lines, the variety name
is the joined first and second line exactly when (a) the second line
holds a parenthetical whose content does not start with "Notified",
"Extant" or "New" (the code does not exclude "Hybrid", and tests a
prefix, not equality) and the second line is under 50 characters, or (b)
the second line is at most 30 characters and the first line does not end
in terminal punctuation; otherwise the stripped first line is used. -/
theorem c6_variety_name_amended (l0 l1 : String) (rest : List String) :
    (extract_variety_name (l0 :: l1 :: rest) =
      if (CodeParenOcc l1 ∧ l1.length < 50) ∨ (l1.length ≤ 30 ∧ endsWithPunct l0 = false)
      then joinTwo l0 l1 else pyStrip l0) ∧
    extract_variety_name ([] : List String) = "NA" ∧
    extract_variety_name [l0] = pyStrip l0 := by
  refine ⟨?_, rfl, rfl⟩
  simp only [extract_variety_name]
  by_cases hA : CodeParenOcc l1
  · have hs : parenCodeScan l1.data = true := (codeParenOcc_iff l1).mpr hA
    by_cases h50 : l1.length < 50
    · simp [hs, h50, hA]
    · by_cases h30 : l1.length ≤ 30
      · by_cases hep : endsWithPunct l0 <;> simp [hs, h50, h30, hep, hA]
      · simp [hs, h50, h30, hA]
  · have hs : parenCodeScan l1.data = false := by
      cases hx : parenCodeScan l1.toList with
      | false => exact hx
      | true => exact absurd ((codeParenOcc_iff l1).mp hx) hA
    by_cases h30 : l1.length ≤ 30
    · by_cases hep : endsWithPunct l0 <;> simp [hs, h30, hep, hA]
    · simp [hs, h30, hA]

/-! ## C1: Scenario A -/

def scenarioA : String :=
  "Pusa Basmati 1\n(IET 10000)\nRice\nNotified\nApplicant: IARI\n45 q/ha"

theorem scenarioA_detect : detect_productivity scenarioA = (ProdVal.qha 45, "High") := by
  simp only [detect_productivity]
  rw [show strip_non_english scenarioA = scenarioA from by decide]
  rw [show findAllProd scenarioA.toList.length scenarioA.toList =
    [(['4','5'], [], "q/ha")] from by decide]
  split
  next m hm =>
    have hmval : m = (['4','5'], ([] : List Char), "q/ha") := by
      have : some (['4','5'], ([] : List Char), "q/ha") = some m := by
        rw [← hm]
        rfl
      exact (Option.some.injEq _ _ ▸ this).symm
    subst hmval
    have hval : ratOfNumParts ['4','5'] [] = (45 : ℚ) := by
      show ((digitsToNat ['4','5'] : ℕ) : ℚ) = 45
      rw [show digitsToNat ['4','5'] = 45 from by decide]
      norm_num
    have hnorm : normalize_units 45 "q/ha" = 45 := by
      rw [normalize_units, show canonUnit "q/ha" = "q/ha" from by decide, if_pos (by decide)]
    show (if 5 ≤ normalize_units (ratOfNumParts ['4','5'] []) "q/ha" ∧
        normalize_units (ratOfNumParts ['4','5'] []) "q/ha" ≤ 150 then
        (ProdVal.qha (pyRound2 (normalize_units (ratOfNumParts ['4','5'] []) "q/ha")), "High")
      else prodTier2 scenarioA) = (ProdVal.qha 45, "High")
    rw [hval, hnorm, if_pos (by norm_num : (5:ℚ) ≤ 45 ∧ (45:ℚ) ≤ 150)]
    have hr : pyRound2 (45 : ℚ) = 45 := by
      rw [pyRound2, show rhe100 (45 : ℚ) = 4500 from by decide]
      norm_num
    rw [hr]
  next hm => exact absurd hm (by decide)

/-- The fully evaluated Entry of Scenario A. -/
def scenarioAEntry : Entry :=
  { Variety_Name := "Pusa Basmati 1 (IET 10000)"
    Crop := "NA"
    Variety_Type := "Notified"
    Applicant := "ICAR-Indian Agricultural Research Institute (Pusa)"
    Applicant_Type := "Public / Govt"
    Charter_of_Crop := "NA"
    Taxonomy := "NA"
    Productivity := ProdVal.qha 45
    Productivity_Confidence := "High"
    Distinctiveness := "NA"
    Developer_or_Breeder := "ICAR-Indian Agricultural Research Institute (Pusa)"
    Block_Text := "Pusa Basmati 1\n(IET 10000)\nRice\nNotified\nApplicant: IARI\n45 q/ha"
    Reg_No := "NA"
    Page_Number := 0 }

theorem scenarioA_parse : parse_block scenarioA = scenarioAEntry := by
  have hprod : (parse_block scenarioA).Productivity = ProdVal.qha 45 := by
    show (detect_productivity (strip_non_english scenarioA)).1 = ProdVal.qha 45
    rw [show strip_non_english scenarioA = scenarioA from by decide, scenarioA_detect]
  apply Entry.ext
  · decide
  · decide
  · decide
  · decide
  · decide
  · decide
  · decide
  · exact hprod
  · decide
  · decide
  · decide
  · decide
  · decide
  · decide

/-- C1 counterexample: on Scenario A's block text the code yields
Crop = "NA" (not "Rice": the lexicon scan misses the newline-delimited
word) and audit flags "crop_unknown" (not "OK"). -/
theorem c1_scenarioA_counterexample :
    (parse_block scenarioA).Crop = "NA" ∧ (parse_block scenarioA).Crop ≠ "Rice" ∧
    audit_flags_str (parse_block scenarioA) = "crop_unknown" ∧
    audit_flags_str (parse_block scenarioA) ≠ "OK" := by
  rw [scenarioA_parse]
  exact ⟨by decide, by decide, by decide, by decide⟩

/-- C1 amended: classifying Scenario A's block text yields
Variety_Name "Pusa Basmati 1 (IET 10000)", Crop "NA" (the lexicon scan is
space-delimited and "Rice" sits on its own line), Variety_Type
"Notified", an Applicant equal to the full institution name the IARI
abbreviation maps to (resolved via the "PUSA" prefix of the first token
"Pusa", which expands to the same string), productivity 45 q/ha at
confidence "High", and audit flags "crop_unknown". -/
theorem c1_scenarioA_amended :
    (parse_block scenarioA).Variety_Name = "Pusa Basmati 1 (IET 10000)" ∧
    (parse_block scenarioA).Crop = "NA" ∧
    (parse_block scenarioA).Variety_Type = "Notified" ∧
    (parse_block scenarioA).Applicant = "ICAR-Indian Agricultural Research Institute (Pusa)" ∧
    (parse_block scenarioA).Applicant = expand_applicant "IARI" ∧
    (parse_block scenarioA).Productivity = ProdVal.qha 45 ∧
    (parse_block scenarioA).Productivity_Confidence = "High" ∧
    audit_flags_str (parse_block scenarioA) = "crop_unknown" := by
  rw [scenarioA_parse]
  exact ⟨by decide, by decide, by decide, by decide, by decide, rfl, by decide, by decide⟩
